import Mathlib

/-!
Shallow embedding of the tarabletft SPI TFT driver (ttft.h, ttft.c,
ttft_font.h, ttft_font.c).

Modelling conventions:
* C `int` values are modelled as `Int`; `uint8_t` values as `Nat`.
* The shadow framebuffer (a heap byte array indexed by `x + y*Width`) is
  modelled as a total function `Int → Nat`; out-of-range stores, which are
  undefined behaviour in C, are well defined in the model so that their
  reachability can be stated (claim about unchecked writes).
* The 256-entry palette is modelled as a total function `Nat → Nat`
  (`Color_t` entries are opaque numbers here).
* The `FontGetGlyphWidth` function pointer of `struct TTFT_Device` only ever
  holds one of two functions (`GetGlyphWidthFixed` / `GetGlyphWidthProportional`,
  selected in ttft_font.c); it is modelled as a two-valued mode tag.
* `NullCheck` guards on the device, framebuffer and font data pointers are
  not representable (records are always present); the `Font` pointer, which
  is genuinely optional in the driver, is modelled as an `Option`.
* Bounded C `for` loops are modelled as structurally recursive functions on
  an explicit fuel argument; every call site passes exactly the number of
  iterations the C loop performs, computed from the same loop bounds.
* SPI traffic is modelled as a list of transfers, each tagged with the
  `IsCommand` flag passed to `TTFT_SPIWrite`.
-/

namespace TTFT

/-- Font definition record, from `struct TTFT_FontDef` (ttft_font.h). -/
structure TTFT_FontDef where
  FontData : List Nat
  Width : Int
  Height : Int
  StartChar : Int
  EndChar : Int
  IsMonospace : Bool

/-- The two functions the `FontGetGlyphWidth` pointer can hold (ttft_font.c). -/
inductive GlyphWidthMode
  | fixed
  | proportional

/-- Text anchors, from `TextAnchor` (ttft_font.h). -/
inductive TextAnchor
  | East
  | West
  | North
  | South
  | NorthEast
  | NorthWest
  | SouthEast
  | SouthWest
  | Center

/-- Device state, from `struct TTFT_Device` (ttft.h).  GPIO pin numbers and
the SPI handle play no role in the claims and are omitted. -/
structure TTFT_Device where
  Width : Int
  Height : Int
  FrameBuffer : Int → Nat
  Palette : Nat → Nat
  Font : Option TTFT_FontDef
  FontGetGlyphWidth : GlyphWidthMode

/-- The `TTFT_SetPixel` macro (ttft.h lines 107-113): store `Color` at buffer
offset `x + y*Width` unless `Color == 255`. -/
def TTFT_SetPixel (d : TTFT_Device) (x y : Int) (Color : Nat) : TTFT_Device :=
  if Color ≠ 255 then
    { d with FrameBuffer := fun i => if i = x + y * d.Width then Color else d.FrameBuffer i }
  else
    d

/-- `TTFT_PutPixel` (ttft.c lines 534-542): two `CheckBounds` guards, then
`TTFT_SetPixel`.  The returned flag is `false` exactly when a `CheckBounds`
guard fired (logged error and early return in the C). -/
def TTFT_PutPixel (d : TTFT_Device) (x y : Int) (Color : Nat) : TTFT_Device × Bool :=
  if x < 0 then (d, false)
  else if x > d.Width - 1 then (d, false)
  else if y < 0 then (d, false)
  else if y > d.Height - 1 then (d, false)
  else (TTFT_SetPixel d x y Color, true)

/-- `TTFT_Clear` (ttft.c lines 523-528): `memset` of `Width*Height` bytes of
the framebuffer to `Color`. -/
def TTFT_Clear (d : TTFT_Device) (Color : Nat) : TTFT_Device :=
  { d with FrameBuffer := fun i =>
      if 0 ≤ i ∧ i < d.Width * d.Height then Color else d.FrameBuffer i }

/-- Loop body of `TTFT_DrawHLine` (ttft.c line 556-558):
`for ( ; x0 <= x1; x0++ ) TTFT_SetPixel(...)`.  Fuel is the iteration count
`(x1 + 1 - x0).toNat` at each call site. -/
def hlineLoop (d : TTFT_Device) (x0 y x1 : Int) (Color : Nat) : Nat → TTFT_Device
  | 0 => d
  | fuel + 1 =>
    if x0 ≤ x1 then hlineLoop (TTFT_SetPixel d x0 y Color) (x0 + 1) y x1 Color fuel
    else d

/-- `TTFT_DrawHLine` (ttft.c lines 548-559): three `CheckBounds` guards, then
the pixel loop over columns `x0..x1`. -/
def TTFT_DrawHLine (d : TTFT_Device) (x0 y x1 : Int) (Color : Nat) : TTFT_Device :=
  if x0 < 0 ∨ x0 > d.Width - 1 then d
  else if x1 < x0 ∨ x1 > d.Width - 1 then d
  else if y < 0 ∨ y > d.Height - 1 then d
  else hlineLoop d x0 y x1 Color (x1 + 1 - x0).toNat

/-- Loop body of `TTFT_DrawVLine` (ttft.c line 573-575). -/
def vlineLoop (d : TTFT_Device) (x0 y0 y1 : Int) (Color : Nat) : Nat → TTFT_Device
  | 0 => d
  | fuel + 1 =>
    if y0 ≤ y1 then vlineLoop (TTFT_SetPixel d x0 y0 Color) x0 (y0 + 1) y1 Color fuel
    else d

/-- `TTFT_DrawVLine` (ttft.c lines 565-576). -/
def TTFT_DrawVLine (d : TTFT_Device) (x0 y0 y1 : Int) (Color : Nat) : TTFT_Device :=
  if x0 < 0 ∨ x0 > d.Width - 1 then d
  else if y0 < 0 ∨ y0 > d.Height - 1 then d
  else if y1 < y0 ∨ y1 > d.Height - 1 then d
  else vlineLoop d x0 y0 y1 Color (y1 + 1 - y0).toNat

/-- Loop of `TTFT_DrawWideLine` (ttft.c lines 593-602): x is the driving
axis, bound inclusive (`x <= x1`).  Fuel is `(x1 + 1 - x).toNat`. -/
def wideLoop (d : TTFT_Device) (x y x1 dx dy Incr Error : Int) (Color : Nat) :
    Nat → TTFT_Device
  | 0 => d
  | fuel + 1 =>
    if x ≤ x1 then
      let d1 := TTFT_SetPixel d x y Color
      let y1 := if Error > 0 then y + Incr else y
      let e1 := if Error > 0 then Error - dx * 2 else Error
      wideLoop d1 (x + 1) y1 x1 dx dy Incr (e1 + dy * 2) Color fuel
    else d

/-- `TTFT_DrawWideLine` (ttft.c lines 578-603): negate dy and flip the y step
direction when dy is negative, initialise the error to `2*dy - dx`. -/
def TTFT_DrawWideLine (d : TTFT_Device) (x0 y0 x1 y1 : Int) (Color : Nat) : TTFT_Device :=
  let dx := x1 - x0
  let dy0 := y1 - y0
  let Incr : Int := if dy0 < 0 then -1 else 1
  let dy := if dy0 < 0 then -dy0 else dy0
  wideLoop d x0 y0 x1 dx dy Incr (dy * 2 - dx) Color (x1 + 1 - x0).toNat

/-- Loop of `TTFT_DrawTallLine` (ttft.c lines 620-629): y is the driving
axis, bound exclusive (`y < y1`).  Fuel is `(y1 - y).toNat`. -/
def tallLoop (d : TTFT_Device) (x y y1 dx dy Incr Error : Int) (Color : Nat) :
    Nat → TTFT_Device
  | 0 => d
  | fuel + 1 =>
    if y < y1 then
      let d1 := TTFT_SetPixel d x y Color
      let x1 := if Error > 0 then x + Incr else x
      let e1 := if Error > 0 then Error - dy * 2 else Error
      tallLoop d1 x1 (y + 1) y1 dx dy Incr (e1 + dx * 2) Color fuel
    else d

/-- `TTFT_DrawTallLine` (ttft.c lines 605-630). -/
def TTFT_DrawTallLine (d : TTFT_Device) (x0 y0 x1 y1 : Int) (Color : Nat) : TTFT_Device :=
  let dx0 := x1 - x0
  let dy := y1 - y0
  let Incr : Int := if dx0 < 0 then -1 else 1
  let dx := if dx0 < 0 then -dx0 else dx0
  tallLoop d x0 y0 y1 dx dy Incr (dx * 2 - dy) Color (y1 - y0).toNat

/-- `TTFT_DrawLine` (ttft.c lines 636-669): bounds checks on the first
endpoint only, then dispatch to the vertical / horizontal / wide / tall
variants, swapping the endpoints so the chosen variant walks forward along
its driving axis. -/
def TTFT_DrawLine (d : TTFT_Device) (x0 y0 x1 y1 : Int) (Color : Nat) : TTFT_Device :=
  if x0 < 0 ∨ x0 > d.Width - 1 then d
  else if y0 < 0 ∨ y0 > d.Height - 1 then d
  else if x0 = x1 then TTFT_DrawVLine d x0 y0 y1 Color
  else if y0 = y1 then TTFT_DrawHLine d x0 y0 x1 Color
  else if (x1 - x0).natAbs > (y1 - y0).natAbs then
    if x0 > x1 then TTFT_DrawWideLine d x1 y1 x0 y0 Color
    else TTFT_DrawWideLine d x0 y0 x1 y1 Color
  else
    if y0 > y1 then TTFT_DrawTallLine d x1 y1 x0 y0 Color
    else TTFT_DrawTallLine d x0 y0 x1 y1 Color

/-- `IsCharacterInFont` (ttft_font.c lines 22-26). -/
def IsCharacterInFont (f : TTFT_FontDef) (C : Int) : Bool :=
  decide (f.StartChar ≤ C ∧ C ≤ f.EndChar)

/-- `RoundUpFontHeight` (ttft_font.c lines 28-34), C integer division. -/
def RoundUpFontHeight (Height : Int) : Int :=
  if Height.tmod 8 ≠ 0 then ((Height + 7).tdiv 8) * 8 else Height

/-- Byte read from a font data blob; the C code reads through a pointer into
`FontData`, modelled as an index with a 0 default for reads past the blob. -/
def fontByte (f : TTFT_FontDef) (i : Int) : Nat :=
  f.FontData.getD i.toNat 0

/-- `GetGlyphPtr` (ttft_font.c lines 36-43): offset of the glyph record of
character `C` inside `FontData`, `none` when `CheckBounds` rejects `C`. -/
def GetGlyphPtr (f : TTFT_FontDef) (C : Int) : Option Int :=
  if C < f.StartChar then none
  else if C > f.EndChar then none
  else some ((C - f.StartChar) * (f.Width * ((RoundUpFontHeight f.Height).tdiv 8) + 1))

/-- `GetGlyphWidthProportional` (ttft_font.c lines 45-52): the first byte of
the glyph record. -/
def GetGlyphWidthProportional (f : TTFT_FontDef) (C : Int) : Int :=
  match GetGlyphPtr f C with
  | none => 0
  | some p => Int.ofNat (fontByte f p)

/-- `GetGlyphWidthFixed` (ttft_font.c lines 54-56). -/
def GetGlyphWidthFixed (f : TTFT_FontDef) (_C : Int) : Int :=
  f.Width

/-- Dispatch through the `FontGetGlyphWidth` function pointer of the device. -/
def getGlyphWidth (mode : GlyphWidthMode) (f : TTFT_FontDef) (C : Int) : Int :=
  match mode with
  | .fixed => GetGlyphWidthFixed f C
  | .proportional => GetGlyphWidthProportional f C

/-- `TTFT_SetFont` (ttft_font.c lines 58-64). -/
def TTFT_SetFont (d : TTFT_Device) (f : TTFT_FontDef) : TTFT_Device :=
  { d with
    Font := some f
    FontGetGlyphWidth := if f.IsMonospace then .fixed else .proportional }

/-- Inner row loop of `TTFT_FontDrawChar` (ttft_font.c lines 137-146):
`for ( y = CharStartY, i = 0; y < CharEndY && i < CharHeight; y++, i++ )`.
`gp` is the current column pointer inside `FontData`.  Fuel is the bound
`(CharHeight - i).toNat` of the `i` counter. -/
def drawCharRowLoop (d : TTFT_Device) (f : TTFT_FontDef) (gp : Int) (x y i : Int)
    (CharEndY CharHeight OffsetY : Int) (FGColor BGColor : Nat) : Nat → TTFT_Device
  | 0 => d
  | fuel + 1 =>
    if y < CharEndY ∧ i < CharHeight then
      let YByte := (i + OffsetY).tdiv 8
      let YBit := (i + OffsetY).tmod 8
      let d1 :=
        if Nat.testBit (fontByte f (gp + YByte)) YBit.toNat then
          TTFT_SetPixel d x y FGColor
        else
          TTFT_SetPixel d x y BGColor
      drawCharRowLoop d1 f gp x (y + 1) (i + 1) CharEndY CharHeight OffsetY FGColor BGColor fuel
    else d

/-- Outer column loop of `TTFT_FontDrawChar` (ttft_font.c lines 136-149):
`for ( x = CharStartX; x < CharEndX; x++ )`, advancing the glyph pointer by
`GlyphColumnLen` after each column. -/
def drawCharColLoop (d : TTFT_Device) (f : TTFT_FontDef) (gp : Int) (x : Int)
    (CharStartY CharEndX CharEndY CharHeight OffsetY GlyphColumnLen : Int)
    (FGColor BGColor : Nat) : Nat → TTFT_Device
  | 0 => d
  | fuel + 1 =>
    if x < CharEndX then
      let d1 := drawCharRowLoop d f gp x CharStartY 0 CharEndY CharHeight OffsetY
        FGColor BGColor (CharHeight - 0).toNat
      drawCharColLoop d1 f (gp + GlyphColumnLen) (x + 1) CharStartY CharEndX CharEndY
        CharHeight OffsetY GlyphColumnLen FGColor BGColor fuel
    else d

/-- `TTFT_FontDrawChar` (ttft_font.c lines 80-151): in-range check, glyph
lookup, clipping against the screen, then the column/row blit loops. -/
def TTFT_FontDrawChar (d : TTFT_Device) (C : Int) (x y : Int)
    (FGColor BGColor : Nat) : TTFT_Device :=
  match d.Font with
  | none => d
  | some f =>
    if IsCharacterInFont f C then
      match GetGlyphPtr f C with
      | none => d
      | some p =>
        let gp := p + 1
        let GlyphColumnLen := (RoundUpFontHeight f.Height).tdiv 8
        let CharWidth := getGlyphWidth d.FontGetGlyphWidth f C
        let CharHeight := f.Height
        let CharStartX := x
        let CharStartY := y
        let CharEndX := CharStartX + CharWidth
        let CharEndY := CharStartY + CharHeight
        let OffsetX := if CharStartX < 0 then -CharStartX else 0
        let OffsetY := if CharStartY < 0 then -CharStartY else 0
        let gp := gp + OffsetX * GlyphColumnLen
        let CharStartX := CharStartX + OffsetX
        let CharStartY := CharStartY + OffsetY
        if CharEndX < 0 ∨ CharStartX ≥ d.Width ∨ CharEndY < 0 ∨ CharStartY ≥ d.Height then
          d
        else
          let CharEndX := if CharEndX ≥ d.Width then d.Width - 1 else CharEndX
          let CharEndY := if CharEndY ≥ d.Height then d.Height - 1 else CharEndY
          drawCharColLoop d f gp CharStartX CharStartY CharEndX CharEndY CharHeight
            OffsetY GlyphColumnLen FGColor BGColor (CharEndX - CharStartX).toNat
    else d

/-- Accumulating loop of `TTFT_FontMeasureString` (ttft_font.c lines 164-168). -/
def measureLoop (mode : GlyphWidthMode) (f : TTFT_FontDef) : List Int → Int
  | [] => 0
  | c :: rest =>
    (if IsCharacterInFont f c then getGlyphWidth mode f c else 0) + measureLoop mode f rest

/-- `TTFT_FontMeasureString` (ttft_font.c lines 153-172).  Strings are lists
of character codes (no terminating NUL). -/
def TTFT_FontMeasureString (d : TTFT_Device) (String : List Int) : Int :=
  match d.Font with
  | none => 0
  | some f => measureLoop d.FontGetGlyphWidth f String

/-- Character loop of `TTFT_FontDrawString` (ttft_font.c lines 188-200):
newline (code 10) resets x to `SavedX` and advances y by the font height;
in-range characters are drawn and advance x by their glyph width; all other
characters are skipped.  The font pointer and width strategy are read from
the device at entry; `TTFT_FontDrawChar` never modifies them. -/
def drawStringLoop (d : TTFT_Device) (f : TTFT_FontDef) (mode : GlyphWidthMode)
    (SavedX x y : Int) (FGColor BGColor : Nat) : List Int → TTFT_Device × Int
  | [] => (d, x)
  | c :: rest =>
    if c = 10 then
      drawStringLoop d f mode SavedX SavedX (y + f.Height) FGColor BGColor rest
    else if IsCharacterInFont f c then
      drawStringLoop (TTFT_FontDrawChar d c x y FGColor BGColor) f mode SavedX
        (x + getGlyphWidth mode f c) y FGColor BGColor rest
    else
      drawStringLoop d f mode SavedX x y FGColor BGColor rest

/-- `TTFT_FontDrawString` (ttft_font.c lines 174-206): returns the final x
cursor, or 0 (drawing nothing) when the measured width is not positive. -/
def TTFT_FontDrawString (d : TTFT_Device) (x y : Int) (FGColor BGColor : Nat)
    (Text : List Int) : TTFT_Device × Int :=
  match d.Font with
  | none => (d, 0)
  | some f =>
    if TTFT_FontMeasureString d Text > 0 then
      drawStringLoop d f d.FontGetGlyphWidth x x y FGColor BGColor Text
    else (d, 0)

/-- Height of the attached font, as read by the unconditional
`DeviceHandle->Font->Height` dereference in `TTFT_FontGetAnchoredStringCoords`
(ttft_font.c line 229); the `none` case is a null dereference in the C and is
modelled as 0. -/
def fontHeightD (d : TTFT_Device) : Int :=
  match d.Font with
  | none => 0
  | some f => f.Height

/-- `TTFT_FontGetAnchoredStringCoords` (ttft_font.c lines 219-293), returning
the pair written through the `OutX`/`OutY` out-parameters. -/
def TTFT_FontGetAnchoredStringCoords (d : TTFT_Device) (Anchor : TextAnchor)
    (Text : List Int) : Int × Int :=
  let StringWidth := TTFT_FontMeasureString d Text
  let StringHeight := fontHeightD d
  match Anchor with
  | .East => (d.Width - StringWidth, (d.Height.tdiv 2) - (StringHeight.tdiv 2))
  | .West => (0, (d.Height.tdiv 2) - (StringHeight.tdiv 2))
  | .North => ((d.Width.tdiv 2) - (StringWidth.tdiv 2), 0)
  | .South => ((d.Width.tdiv 2) - (StringWidth.tdiv 2), d.Height - StringHeight)
  | .NorthEast => (d.Width - StringWidth, 0)
  | .NorthWest => (0, 0)
  | .SouthEast => (d.Width - StringWidth, d.Height - StringHeight)
  | .SouthWest => (0, d.Height - StringHeight)
  | .Center => ((d.Width.tdiv 2) - (StringWidth.tdiv 2),
                (d.Height.tdiv 2) - (StringHeight.tdiv 2))

/-- `TTFT_FontDrawAnchoredString` (ttft_font.c lines 208-217). -/
def TTFT_FontDrawAnchoredString (d : TTFT_Device) (Anchor : TextAnchor)
    (Text : List Int) (FGColor BGColor : Nat) : TTFT_Device × Int :=
  let xy := TTFT_FontGetAnchoredStringCoords d Anchor Text
  TTFT_FontDrawString d xy.1 xy.2 FGColor BGColor Text

/-- One SPI transfer: the `IsCommand` flag handed to `TTFT_SPIWrite` plus the
transmitted payload (here: a list of `Color_t` pixel values). -/
structure Transfer where
  IsCommand : Bool
  Data : List Nat

/-- `TTFT_SPIWrite` (ttft.c lines 726-745): emits one transfer when the
payload is nonempty, nothing otherwise (`DataLength > 0` guard). -/
def TTFT_SPIWrite (Data : List Nat) (IsCommand : Bool) : List Transfer :=
  if Data.length > 0 then [⟨IsCommand, Data⟩] else []

/-- `LineUpdateCount` (ttft.c line 747). -/
def LineUpdateCount : Int := 4

/-- Scanline-chunk loop of `TTFT_Update` (ttft.c lines 776-782):
`for ( y = 0; y < Height; y += LineUpdateCount )`, filling the line buffer
with `Palette[*Ptr++]` for `Width*LineUpdateCount` pixels and streaming it as
one data transfer.  `Ptr` is the read position inside the framebuffer; fuel
is `Height.toNat`, an upper bound on the iteration count (each iteration
advances y by 4). -/
def updateLoop (d : TTFT_Device) (Ptr y : Int) : Nat → List Transfer
  | 0 => []
  | fuel + 1 =>
    if y < d.Height then
      let LineBuffer := (List.range (d.Width * LineUpdateCount).toNat).map
        (fun i : Nat => d.Palette (d.FrameBuffer (Ptr + (i : Int))))
      TTFT_SPIWrite LineBuffer false
        ++ updateLoop d (Ptr + d.Width * LineUpdateCount) (y + LineUpdateCount) fuel
    else []

/-- `TTFT_Update` (ttft.c lines 757-785), restricted to the pixel-streaming
loop.  The preceding `TTFT_SetAddressWindow` call emits a fixed command
preamble (window coordinates) that does not depend on the framebuffer or the
palette and is not part of the pixel data stream; it is omitted here.  The
function never writes to the framebuffer or palette, so the device is
returned unchanged. -/
def TTFT_Update (d : TTFT_Device) : TTFT_Device × List Transfer :=
  (d, updateLoop d 0 0 d.Height.toNat)

/-! Basic facts about `TTFT_SetPixel`, shared by the primitive proofs. -/

lemma TTFT_SetPixel_Width (d : TTFT_Device) (x y : Int) (c : Nat) :
    (TTFT_SetPixel d x y c).Width = d.Width := by
  unfold TTFT_SetPixel
  split <;> rfl

lemma TTFT_SetPixel_Height (d : TTFT_Device) (x y : Int) (c : Nat) :
    (TTFT_SetPixel d x y c).Height = d.Height := by
  unfold TTFT_SetPixel
  split <;> rfl

lemma TTFT_SetPixel_fb_ne (d : TTFT_Device) (x y : Int) (c : Nat) (i : Int)
    (h : i ≠ x + y * d.Width) :
    (TTFT_SetPixel d x y c).FrameBuffer i = d.FrameBuffer i := by
  unfold TTFT_SetPixel
  split
  · simp [h]
  · rfl

lemma TTFT_SetPixel_fb_self (d : TTFT_Device) (x y : Int) (c : Nat) (hc : c ≠ 255) :
    (TTFT_SetPixel d x y c).FrameBuffer (x + y * d.Width) = c := by
  unfold TTFT_SetPixel
  rw [if_pos hc]
  simp

lemma TTFT_SetPixel_255 (d : TTFT_Device) (x y : Int) :
    TTFT_SetPixel d x y 255 = d := by
  unfold TTFT_SetPixel
  simp

/-! Concrete devices and fonts used to instantiate the theorems. -/

/-- A 4 by 4 device with an all-zero framebuffer and the identity palette. -/
def dev4 : TTFT_Device :=
  { Width := 4
    Height := 4
    FrameBuffer := fun _ => 0
    Palette := fun n => n
    Font := none
    FontGetGlyphWidth := .fixed }

/-- A tiny monospace font: characters 65 and 66, ink width 1, height 2, one
byte per column; each glyph record is a width byte followed by one column
byte. -/
def font1 : TTFT_FontDef :=
  { FontData := [1, 3, 1, 2]
    Width := 1
    Height := 2
    StartChar := 65
    EndChar := 66
    IsMonospace := true }

/-- A 4 by 4 device with `font1` attached in fixed-width mode. -/
def dev4f : TTFT_Device :=
  { Width := 4
    Height := 4
    FrameBuffer := fun _ => 0
    Palette := fun n => n
    Font := some font1
    FontGetGlyphWidth := .fixed }

/-! Horizontal line lemmas. -/

lemma hlineLoop_fb_unchanged (fuel : Nat) :
    ∀ (d : TTFT_Device) (x0 y x1 : Int) (c : Nat) (i : Int),
      (∀ cx, x0 ≤ cx → cx ≤ x1 → i ≠ cx + y * d.Width) →
      (hlineLoop d x0 y x1 c fuel).FrameBuffer i = d.FrameBuffer i := by
  induction fuel with
  | zero => intro d x0 y x1 c i _; rfl
  | succ n ih =>
    intro d x0 y x1 c i h
    simp only [hlineLoop]
    by_cases hx : x0 ≤ x1
    · rw [if_pos hx]
      rw [ih (TTFT_SetPixel d x0 y c) (x0 + 1) y x1 c i ?_]
      · exact TTFT_SetPixel_fb_ne d x0 y c i (h x0 le_rfl hx)
      · intro cx h1 h2
        rw [TTFT_SetPixel_Width]
        exact h cx (by omega) h2
    · rw [if_neg hx]

lemma hlineLoop_paints (fuel : Nat) :
    ∀ (d : TTFT_Device) (x0 y x1 : Int) (c : Nat),
      (x1 + 1 - x0).toNat ≤ fuel → c ≠ 255 →
      ∀ cx, x0 ≤ cx → cx ≤ x1 →
        (hlineLoop d x0 y x1 c fuel).FrameBuffer (cx + y * d.Width) = c := by
  induction fuel with
  | zero => intro d x0 y x1 c hfuel _ cx h1 h2; omega
  | succ n ih =>
    intro d x0 y x1 c hfuel hc cx h1 h2
    have hx : x0 ≤ x1 := le_trans h1 h2
    simp only [hlineLoop, if_pos hx]
    rcases eq_or_lt_of_le h1 with rfl | hlt
    · rw [hlineLoop_fb_unchanged n (TTFT_SetPixel d x0 y c) (x0 + 1) y x1 c _ ?_]
      · exact TTFT_SetPixel_fb_self d x0 y c hc
      · intro cx' ha hb heq
        rw [TTFT_SetPixel_Width] at heq
        have : x0 = cx' := by linarith
        omega
    · have := ih (TTFT_SetPixel d x0 y c) (x0 + 1) y x1 c (by omega) hc cx (by omega) h2
      rw [TTFT_SetPixel_Width] at this
      exact this

lemma hlineLoop_255 (fuel : Nat) :
    ∀ (d : TTFT_Device) (x0 y x1 : Int), hlineLoop d x0 y x1 255 fuel = d := by
  induction fuel with
  | zero => intro d x0 y x1; rfl
  | succ n ih =>
    intro d x0 y x1
    simp only [hlineLoop, TTFT_SetPixel_255, ih]
    split <;> rfl

/-- C5 (amended): with x0 ≤ x1, both columns and the row in range, and a
color index other than 255, drawHLine writes the index to exactly the
positions `cx + y*width` for `cx` in `x0..x1` and leaves every other buffer
position unchanged; with color index 255 every write is suppressed by the
transparency rule and the whole device is unchanged. -/
theorem drawHLine_row_exact (d : TTFT_Device) (x0 y x1 : Int) (c : Nat)
    (h0 : 0 ≤ x0) (h01 : x0 ≤ x1) (h1 : x1 ≤ d.Width - 1)
    (hy0 : 0 ≤ y) (hy1 : y ≤ d.Height - 1) :
    (c ≠ 255 →
      (∀ cx, x0 ≤ cx → cx ≤ x1 →
        (TTFT_DrawHLine d x0 y x1 c).FrameBuffer (cx + y * d.Width) = c) ∧
      (∀ i : Int, (∀ cx, x0 ≤ cx → cx ≤ x1 → i ≠ cx + y * d.Width) →
        (TTFT_DrawHLine d x0 y x1 c).FrameBuffer i = d.FrameBuffer i)) ∧
    TTFT_DrawHLine d x0 y x1 255 = d := by
  constructor
  · intro hc
    unfold TTFT_DrawHLine
    rw [if_neg (by omega), if_neg (by omega), if_neg (by omega)]
    constructor
    · intro cx ha hb
      exact hlineLoop_paints _ d x0 y x1 c le_rfl hc cx ha hb
    · intro i hi
      exact hlineLoop_fb_unchanged _ d x0 y x1 c i hi
  · unfold TTFT_DrawHLine
    split_ifs <;> first | rfl | exact hlineLoop_255 _ d x0 y x1

/-- C5 witness: a concrete horizontal line on the 4 by 4 device paints column
2 of row 2 and leaves position 0 unchanged. -/
theorem drawHLine_row_exact_witness :
    (TTFT_DrawHLine dev4 1 2 3 7).FrameBuffer (2 + 2 * dev4.Width) = 7 ∧
    (TTFT_DrawHLine dev4 1 2 3 7).FrameBuffer 0 = dev4.FrameBuffer 0 := by
  have h := drawHLine_row_exact dev4 1 2 3 7 (by decide) (by decide) (by decide)
    (by decide) (by decide)
  obtain ⟨hp, hu⟩ := h.1 (by decide)
  refine ⟨hp 2 (by decide) (by decide), hu 0 ?_⟩
  intro cx h1 h2
  have hw : dev4.Width = 4 := rfl
  omega

/-- C5 counterexample: with color index 255 the claimed write does not
happen; drawing the one-pixel line at (0,0) with index 255 leaves the stored
index 0, so the claim read at every color index fails at 255. -/
theorem drawHLine_claim_counterexample :
    ¬ ((TTFT_DrawHLine dev4 0 0 0 255).FrameBuffer (0 + 0 * dev4.Width) = 255) := by
  decide

/-- C1: for in-bounds coordinates, a pixel write with index other than 255
stores the index at buffer position `x + y*width` (both through the raw
`TTFT_SetPixel` store and through `TTFT_PutPixel`), and a pixel write with
index 255 leaves the device, hence every byte of the pixel buffer,
unchanged. -/
theorem putPixel_stores_transparent_skips (d : TTFT_Device) (x y : Int) (c : Nat)
    (hx0 : 0 ≤ x) (hx1 : x ≤ d.Width - 1) (hy0 : 0 ≤ y) (hy1 : y ≤ d.Height - 1) :
    (c ≠ 255 →
      (TTFT_SetPixel d x y c).FrameBuffer (x + y * d.Width) = c ∧
      (TTFT_PutPixel d x y c).1.FrameBuffer (x + y * d.Width) = c) ∧
    (TTFT_SetPixel d x y 255 = d ∧ TTFT_PutPixel d x y 255 = (d, true)) := by
  have hpp : ∀ c' : Nat, TTFT_PutPixel d x y c' = (TTFT_SetPixel d x y c', true) := by
    intro c'
    unfold TTFT_PutPixel
    rw [if_neg (by omega), if_neg (by omega), if_neg (by omega), if_neg (by omega)]
  refine ⟨fun hc => ⟨TTFT_SetPixel_fb_self d x y c hc, ?_⟩, ⟨TTFT_SetPixel_255 d x y, ?_⟩⟩
  · rw [hpp c]
    exact TTFT_SetPixel_fb_self d x y c hc
  · rw [hpp 255, TTFT_SetPixel_255]

/-- C1 witness: storing index 7 at (2,1) of the 4 by 4 device and reading it
back, and the transparent index leaving the device unchanged. -/
theorem putPixel_stores_transparent_skips_witness :
    (TTFT_SetPixel dev4 2 1 7).FrameBuffer (2 + 1 * dev4.Width) = 7 ∧
    TTFT_SetPixel dev4 2 1 255 = dev4 := by
  have h := putPixel_stores_transparent_skips dev4 2 1 7 (by decide) (by decide)
    (by decide) (by decide)
  exact ⟨(h.1 (by decide)).1, h.2.1⟩

/-- C8: clearing to any index I up to 255, including the transparent index
255, makes every in-range buffer position read I; bulk clear bypasses the
index-255 transparency rule. -/
theorem clear_fills_all (d : TTFT_Device) (I : Nat) (_hI : I ≤ 255) :
    ∀ x y : Int, 0 ≤ x → x < d.Width → 0 ≤ y → y < d.Height →
      (TTFT_Clear d I).FrameBuffer (x + y * d.Width) = I := by
  intro x y hx0 hx1 hy0 hy1
  have hW : 0 < d.Width := lt_of_le_of_lt hx0 hx1
  unfold TTFT_Clear
  simp only
  rw [if_pos]
  constructor
  · have : 0 ≤ y * d.Width := mul_nonneg hy0 (le_of_lt hW)
    omega
  · have h1 : x + y * d.Width < (y + 1) * d.Width := by
      have : (y + 1) * d.Width = y * d.Width + d.Width := by ring
      omega
    have h2 : (y + 1) * d.Width ≤ d.Height * d.Width :=
      mul_le_mul_of_nonneg_right (by omega) (le_of_lt hW)
    have h3 : d.Height * d.Width = d.Width * d.Height := mul_comm _ _
    linarith

/-- C8 witness: clearing the 4 by 4 device to the transparent index 255
paints position (1,2). -/
theorem clear_fills_all_witness :
    (TTFT_Clear dev4 255).FrameBuffer (1 + 2 * dev4.Width) = 255 := by
  exact clear_fills_all dev4 255 (by decide) 1 2 (by decide) (by decide) (by decide)
    (by decide)

/-- C9: a pixel write at any out-of-bounds coordinate is rejected by the
entry bounds checks: the device (hence the whole pixel buffer) is unchanged
and the failure flag is reported. -/
theorem putPixel_oob_rejected (d : TTFT_Device) (x y : Int) (c : Nat)
    (h : x < 0 ∨ x > d.Width - 1 ∨ y < 0 ∨ y > d.Height - 1) :
    TTFT_PutPixel d x y c = (d, false) := by
  unfold TTFT_PutPixel
  split_ifs <;> first | rfl | omega

/-- C9 witness: both putPixel(-1,0,1) and putPixel(width,0,1) on the 4 by 4
device are rejected no-ops. -/
theorem putPixel_oob_rejected_witness :
    TTFT_PutPixel dev4 (-1) 0 1 = (dev4, false) ∧
    TTFT_PutPixel dev4 dev4.Width 0 1 = (dev4, false) := by
  constructor
  · exact putPixel_oob_rejected dev4 (-1) 0 1 (Or.inl (by decide))
  · exact putPixel_oob_rejected dev4 dev4.Width 0 1 (Or.inr (Or.inl (by decide)))

/-- C10: drawLine checks only its first endpoint; with the in-bounds first
endpoint (3,3) and the out-of-bounds second endpoint (5,5) on the 4 by 4
device, the tall sloping variant reaches a store at buffer index 20, outside
[0, width*height) = [0,16). -/
theorem drawLine_oob_store_reachable :
    (TTFT_DrawLine dev4 3 3 5 5 1).FrameBuffer 20 = 1 ∧
    dev4.FrameBuffer 20 = 0 ∧
    ¬ (0 ≤ (20 : Int) ∧ (20 : Int) < dev4.Width * dev4.Height) ∧
    (0 ≤ (3 : Int) ∧ (3 : Int) ≤ dev4.Width - 1 ∧
      0 ≤ (3 : Int) ∧ (3 : Int) ≤ dev4.Height - 1) ∧
    ¬ ((5 : Int) ≤ dev4.Width - 1) := by
  refine ⟨?_, rfl, by decide, by decide, by decide⟩
  decide

/-! Spec-side (refinement) definitions for the string operations.  These
follow the wording of the specification and are compared with the
definitions translated from the source. -/

/-- Spec-side string measure: the sum, over exactly those characters of the
text lying in the covered range, of the glyph width under the active width
strategy; out-of-range characters contribute nothing. -/
def specMeasureString (mode : GlyphWidthMode) (f : TTFT_FontDef) (s : List Int) : Int :=
  ((s.filter (fun c => IsCharacterInFont f c)).map (getGlyphWidth mode f)).sum

/-- Spec-side drawString state evolution: characters left to right; newline
resets the x cursor to the original starting x and advances y by the font
height; an in-range character is drawn at the current cursor and advances x
by its glyph width; any other character is skipped with no cursor change.
Returns the device together with the final cursor. -/
def specDrawString (mode : GlyphWidthMode) (f : TTFT_FontDef) (startX : Int)
    (FGColor BGColor : Nat) :
    TTFT_Device → Int → Int → List Int → TTFT_Device × Int × Int
  | d, x, y, [] => (d, x, y)
  | d, x, y, c :: rest =>
    if c = 10 then
      specDrawString mode f startX FGColor BGColor d startX (y + f.Height) rest
    else if IsCharacterInFont f c then
      specDrawString mode f startX FGColor BGColor
        (TTFT_FontDrawChar d c x y FGColor BGColor) (x + getGlyphWidth mode f c) y rest
    else
      specDrawString mode f startX FGColor BGColor d x y rest

lemma measureLoop_eq_spec (mode : GlyphWidthMode) (f : TTFT_FontDef) :
    ∀ s : List Int, measureLoop mode f s = specMeasureString mode f s := by
  intro s
  induction s with
  | nil => rfl
  | cons c rest ih =>
    simp only [measureLoop, specMeasureString, List.filter_cons] at *
    by_cases h : IsCharacterInFont f c
    · simp [h, ih]
    · simp [h, ih]

/-- C7: with a font attached, measureString returns the sum over exactly the
in-range characters of the glyph width under the active width strategy; the
fixed strategy returns the declared font width, the proportional strategy
the first byte of the glyph record; the empty string and fully out-of-range
strings measure 0. -/
theorem measureString_spec (d : TTFT_Device) (f : TTFT_FontDef) (s : List Int)
    (hf : d.Font = some f) :
    TTFT_FontMeasureString d s = specMeasureString d.FontGetGlyphWidth f s ∧
    (∀ c : Int, getGlyphWidth GlyphWidthMode.fixed f c = f.Width) ∧
    (∀ c : Int, IsCharacterInFont f c →
      getGlyphWidth GlyphWidthMode.proportional f c =
        Int.ofNat (fontByte f
          ((c - f.StartChar) * (f.Width * ((RoundUpFontHeight f.Height).tdiv 8) + 1)))) ∧
    TTFT_FontMeasureString d [] = 0 ∧
    ((∀ c ∈ s, ¬ IsCharacterInFont f c) → TTFT_FontMeasureString d s = 0) := by
  have hmain : TTFT_FontMeasureString d s = specMeasureString d.FontGetGlyphWidth f s := by
    simp only [TTFT_FontMeasureString, hf]
    exact measureLoop_eq_spec _ f s
  refine ⟨hmain, fun c => rfl, ?_, ?_, ?_⟩
  · intro c hc
    simp only [IsCharacterInFont, decide_eq_true_eq] at hc
    simp only [getGlyphWidth, GetGlyphWidthProportional, GetGlyphPtr,
      if_neg (by omega : ¬ c < f.StartChar), if_neg (by omega : ¬ c > f.EndChar)]
  · simp only [TTFT_FontMeasureString, hf]
    rfl
  · intro hall
    rw [hmain]
    have : s.filter (fun c => IsCharacterInFont f c) = [] := by
      rw [List.filter_eq_nil_iff]
      intro a ha
      simpa using hall a ha
    simp [specMeasureString, this]

/-- C7 witness: on the 4 by 4 device with the two-character font, the string
(65, 200) measures through the spec sum, and the empty string measures 0. -/
theorem measureString_spec_witness :
    TTFT_FontMeasureString dev4f [65, 200] =
      specMeasureString dev4f.FontGetGlyphWidth font1 [65, 200] ∧
    TTFT_FontMeasureString dev4f [] = 0 := by
  have h := measureString_spec dev4f font1 [65, 200] rfl
  exact ⟨h.1, h.2.2.2.1⟩

lemma drawStringLoop_eq_spec (f : TTFT_FontDef) (mode : GlyphWidthMode)
    (SavedX : Int) (FGColor BGColor : Nat) :
    ∀ (t : List Int) (d : TTFT_Device) (x y : Int),
      drawStringLoop d f mode SavedX x y FGColor BGColor t =
        ((specDrawString mode f SavedX FGColor BGColor d x y t).1,
         (specDrawString mode f SavedX FGColor BGColor d x y t).2.1) := by
  intro t
  induction t with
  | nil => intro d x y; rfl
  | cons c rest ih =>
    intro d x y
    simp only [drawStringLoop, specDrawString]
    by_cases h10 : c = 10
    · rw [if_pos h10, if_pos h10]
      exact ih d SavedX (y + f.Height)
    · rw [if_neg h10, if_neg h10]
      by_cases hin : IsCharacterInFont f c
      · rw [if_pos hin, if_pos hin]
        exact ih _ _ y
      · rw [if_neg hin, if_neg hin]
        exact ih d x y

/-- C6: with a font attached, drawString walks the text left to right with
the spec cursor discipline: newline resets x to the original starting x and
advances y by the font height, an in-range character is drawn at the current
cursor and advances x by its glyph width, out-of-range characters are
skipped with no cursor advance, and the final x cursor is returned; when the
measured width is not positive, nothing is drawn and 0 is returned. -/
theorem drawString_spec (d : TTFT_Device) (f : TTFT_FontDef) (x y : Int)
    (FGColor BGColor : Nat) (t : List Int) (hf : d.Font = some f) :
    (TTFT_FontMeasureString d t ≤ 0 →
      TTFT_FontDrawString d x y FGColor BGColor t = (d, 0)) ∧
    (TTFT_FontMeasureString d t > 0 →
      TTFT_FontDrawString d x y FGColor BGColor t =
        ((specDrawString d.FontGetGlyphWidth f x FGColor BGColor d x y t).1,
         (specDrawString d.FontGetGlyphWidth f x FGColor BGColor d x y t).2.1)) := by
  constructor
  · intro hm
    simp only [TTFT_FontDrawString, hf]
    rw [if_neg (by omega)]
  · intro hm
    simp only [TTFT_FontDrawString, hf]
    rw [if_pos hm]
    exact drawStringLoop_eq_spec f d.FontGetGlyphWidth x FGColor BGColor t d x y

/-- C6 witness: drawing (65, 10, 66) on the device with the attached font
follows the spec evolution; in particular the returned cursor is the spec
cursor. -/
theorem drawString_spec_witness :
    TTFT_FontDrawString dev4f 1 0 1 0 [65, 10, 66] =
      ((specDrawString dev4f.FontGetGlyphWidth font1 1 1 0 dev4f 1 0 [65, 10, 66]).1,
       (specDrawString dev4f.FontGetGlyphWidth font1 1 1 0 dev4f 1 0 [65, 10, 66]).2.1) := by
  exact (drawString_spec dev4f font1 1 0 1 0 [65, 10, 66] rfl).2 (by decide)

/-- C4 counterexample: on the 4 by 4 device with the attached font, the
string (65) measures width 1 and the font height is 2; the Center anchor
origin computed by the code is (2,1), not ((W-Sw)/2, (H-Sh)/2) = (1,1). -/
theorem anchoredCenter_claim_counterexample :
    ¬ (TTFT_FontGetAnchoredStringCoords dev4f TextAnchor.Center [65] =
        ((dev4f.Width - TTFT_FontMeasureString dev4f [65]).tdiv 2,
         (dev4f.Height - fontHeightD dev4f).tdiv 2)) := by
  decide

/-- C4 (amended): with a font of height Sh attached and a string of measured
width Sw, drawAnchoredString with anchor Center computes the drawing origin
(W/2 - Sw/2, H/2 - Sh/2) (each half truncated separately, which can differ
from ((W-Sw)/2, (H-Sh)/2) by one when exactly one operand of a difference is
odd) and delegates to drawString at that origin. -/
theorem anchoredCenter_coords (d : TTFT_Device) (f : TTFT_FontDef)
    (t : List Int) (FGColor BGColor : Nat) (hf : d.Font = some f) :
    TTFT_FontGetAnchoredStringCoords d TextAnchor.Center t =
      ((d.Width.tdiv 2) - ((TTFT_FontMeasureString d t).tdiv 2),
       (d.Height.tdiv 2) - (f.Height.tdiv 2)) ∧
    TTFT_FontDrawAnchoredString d TextAnchor.Center t FGColor BGColor =
      TTFT_FontDrawString d
        (TTFT_FontGetAnchoredStringCoords d TextAnchor.Center t).1
        (TTFT_FontGetAnchoredStringCoords d TextAnchor.Center t).2
        FGColor BGColor t := by
  constructor
  · simp [TTFT_FontGetAnchoredStringCoords, fontHeightD, hf]
  · rfl

/-- C4 witness: the concrete Center origin on the 4 by 4 device with the
attached font, and the delegation to drawString at that origin. -/
theorem anchoredCenter_coords_witness :
    TTFT_FontGetAnchoredStringCoords dev4f TextAnchor.Center [65] =
      ((dev4f.Width.tdiv 2) - ((TTFT_FontMeasureString dev4f [65]).tdiv 2),
       (dev4f.Height.tdiv 2) - (font1.Height.tdiv 2)) ∧
    TTFT_FontDrawAnchoredString dev4f TextAnchor.Center [65] 1 0 =
      TTFT_FontDrawString dev4f
        (TTFT_FontGetAnchoredStringCoords dev4f TextAnchor.Center [65]).1
        (TTFT_FontGetAnchoredStringCoords dev4f TextAnchor.Center [65]).2
        1 0 [65] := by
  exact anchoredCenter_coords dev4f font1 [65] 1 0 rfl

/-! Update pipeline lemmas. -/

/-- A 1 by 1 device whose single pixel has index 7, with the identity
palette. -/
def dev1 : TTFT_Device :=
  { Width := 1
    Height := 1
    FrameBuffer := fun _ => 7
    Palette := fun n => n
    Font := none
    FontGetGlyphWidth := .fixed }

lemma updateLoop_spec (m : Nat) :
    ∀ (d : TTFT_Device) (p y : Int) (fuel : Nat),
      0 < d.Width → d.Height - y = 4 * m → m ≤ fuel →
      (∀ t ∈ updateLoop d p y fuel,
        t.IsCommand = false ∧ t.Data.length = (d.Width * 4).toNat) ∧
      ((updateLoop d p y fuel).map Transfer.Data).flatten =
        (List.range (d.Width * 4 * m).toNat).map
          (fun i : Nat => d.Palette (d.FrameBuffer (p + (i : Int)))) := by
  induction m with
  | zero =>
    intro d p y fuel hW h4 _
    have hy : ¬ y < d.Height := by omega
    cases fuel with
    | zero => simp [updateLoop]
    | succ n => simp [updateLoop, hy]
  | succ k ih =>
    intro d p y fuel hW h4 hm
    obtain ⟨n, rfl⟩ : ∃ n, fuel = n + 1 := ⟨fuel - 1, by omega⟩
    have hy : y < d.Height := by omega
    have hW4 : (0 : Int) ≤ d.Width * 4 := by positivity
    have hW4k : (0 : Int) ≤ d.Width * 4 * k := by positivity
    have hcast : ((d.Width * 4).toNat : Int) = d.Width * 4 := Int.toNat_of_nonneg hW4
    simp only [updateLoop, if_pos hy, LineUpdateCount]
    have hpos : 0 < ((List.range (d.Width * 4).toNat).map
        (fun i : Nat => d.Palette (d.FrameBuffer (p + (i : Int))))).length := by
      simp only [List.length_map, List.length_range]
      omega
    simp only [TTFT_SPIWrite, if_pos hpos]
    have hrec := ih d (p + d.Width * 4) (y + 4) n hW (by push_cast at h4 ⊢; omega) (by omega)
    constructor
    · intro t ht
      rcases List.mem_append.mp ht with h1 | h2
      · rcases List.mem_singleton.mp h1 with rfl
        exact ⟨rfl, by simp⟩
      · exact hrec.1 t h2
    · simp only [List.map_cons, List.map_nil, List.flatten_cons, List.flatten_nil,
        List.append_nil, List.map_append, List.flatten_append, List.singleton_append,
        List.flatten_cons]
      rw [hrec.2]
      have hsplit : (d.Width * 4 * ((k : Int) + 1)).toNat =
          (d.Width * 4).toNat + (d.Width * 4 * k).toNat := by
        have h2 : d.Width * 4 * ((k : Int) + 1) = d.Width * 4 + d.Width * 4 * k := by ring
        rw [h2, Int.toNat_add hW4 hW4k]
      push_cast
      rw [hsplit, List.range_add, List.map_append]
      congr 1
      rw [List.map_map]
      apply List.map_congr_left
      intro a _
      simp only [Function.comp_apply]
      congr 1
      push_cast [hcast]
      ring_nf

/-- C2 counterexample: on a 1 by 1 device the update loop still streams a
whole 4-scanline chunk of 4 pixel values, not the width*height = 1 values
the claim demands. -/
theorem update_exact_counterexample :
    ¬ (((TTFT_Update dev1).2.map Transfer.Data).flatten =
        (List.range (dev1.Width * dev1.Height).toNat).map
          (fun i : Nat => dev1.Palette (dev1.FrameBuffer (i : Int)))) := by
  decide

/-- C2 (amended): for every device of positive width whose height is a
multiple of the 4-scanline chunk, update leaves the device (framebuffer and
palette) unchanged and sends to the transport, all tagged as data (not a
command), exactly the palette entries of the framebuffer indices for
positions 0 .. width*height-1 in increasing order, grouped into transfers of
width*4 pixels (4 whole scanlines) each. -/
theorem update_streams_palette (d : TTFT_Device) (k : Nat)
    (hW : 0 < d.Width) (hH : d.Height = 4 * (k : Int)) :
    (TTFT_Update d).1 = d ∧
    (∀ t ∈ (TTFT_Update d).2,
      t.IsCommand = false ∧ t.Data.length = (d.Width * 4).toNat) ∧
    ((TTFT_Update d).2.map Transfer.Data).flatten =
      (List.range (d.Width * d.Height).toNat).map
        (fun i : Nat => d.Palette (d.FrameBuffer (i : Int))) := by
  have h := updateLoop_spec k d 0 0 d.Height.toNat hW (by omega) (by omega)
  refine ⟨rfl, h.1, ?_⟩
  rw [show (TTFT_Update d).2 = updateLoop d 0 0 d.Height.toNat from rfl, h.2]
  have hWH : d.Width * 4 * (k : Int) = d.Width * d.Height := by rw [hH]; ring
  rw [hWH]
  simp

/-- C2 witness: the 4 by 4 device with identity palette streams its whole
framebuffer as data transfers covering 4 scanlines each. -/
theorem update_streams_palette_witness :
    (TTFT_Update dev4).1 = dev4 ∧
    ((TTFT_Update dev4).2.map Transfer.Data).flatten =
      (List.range (dev4.Width * dev4.Height).toNat).map
        (fun i : Nat => dev4.Palette (dev4.FrameBuffer (i : Int))) := by
  have h := update_streams_palette dev4 1 (by decide) (by decide)
  exact ⟨h.1, h.2.2⟩

/-! Bresenham variant lemmas.  Buffer indices `x + y*Width` decompose
uniquely into column and row as long as the column lies in `[0, Width-1]`. -/

lemma col_row_inj {W x x' y y' : Int} (hx : 0 ≤ x) (hx2 : x ≤ W - 1)
    (hx' : 0 ≤ x') (hx2' : x' ≤ W - 1) (h : x + y * W = x' + y' * W) :
    x = x' ∧ y = y' := by
  have hW : 0 < W := by omega
  by_cases hyy : y = y'
  · subst hyy
    exact ⟨by omega, rfl⟩
  · exfalso
    rcases lt_or_gt_of_ne hyy with hlt | hgt
    · have h1 : 1 ≤ y' - y := by omega
      have h2 : 1 * W ≤ (y' - y) * W := mul_le_mul_of_nonneg_right h1 (by omega)
      have hd : (y' - y) * W = x - x' := by linear_combination -h
      rw [one_mul] at h2
      omega
    · have h1 : 1 ≤ y - y' := by omega
      have h2 : 1 * W ≤ (y - y') * W := mul_le_mul_of_nonneg_right h1 (by omega)
      have hd : (y - y') * W = x' - x := by linear_combination h
      rw [one_mul] at h2
      omega

lemma wideLoop_fb_unchanged (fuel : Nat) :
    ∀ (d : TTFT_Device) (x y x1 dx dy Incr Error : Int) (c : Nat) (i : Int),
      (Incr = 1 ∨ Incr = -1) →
      (∀ x' y' : Int, x ≤ x' → x' ≤ x1 → y - (x' - x) ≤ y' → y' ≤ y + (x' - x) →
        i ≠ x' + y' * d.Width) →
      (wideLoop d x y x1 dx dy Incr Error c fuel).FrameBuffer i = d.FrameBuffer i := by
  induction fuel with
  | zero => intro d x y x1 dx dy Incr Error c i _ _; rfl
  | succ n ih =>
    intro d x y x1 dx dy Incr Error c i hInc h
    simp only [wideLoop]
    by_cases hx : x ≤ x1
    · rw [if_pos hx]
      have hcur : i ≠ x + y * d.Width := h x y le_rfl hx (by omega) (by omega)
      have hnext : ∀ ynext : Int, (ynext = y + Incr ∨ ynext = y) →
          ∀ Enext : Int,
          (wideLoop (TTFT_SetPixel d x y c) (x + 1) ynext x1 dx dy Incr Enext c n).FrameBuffer i
            = d.FrameBuffer i := by
        intro ynext hyn Enext
        rw [ih (TTFT_SetPixel d x y c) (x + 1) ynext x1 dx dy Incr Enext c i hInc ?_]
        · exact TTFT_SetPixel_fb_ne d x y c i hcur
        · intro x' y' h1 h2 h3 h4
          rw [TTFT_SetPixel_Width]
          rcases hInc with rfl | rfl <;> rcases hyn with rfl | rfl <;>
            exact h x' y' (by omega) h2 (by omega) (by omega)
      by_cases hE : Error > 0
      · simp only [if_pos hE]
        exact hnext (y + Incr) (Or.inl rfl) _
      · simp only [if_neg hE]
        exact hnext y (Or.inr rfl) _
    · rw [if_neg hx]

lemma wideLoop_paints (fuel : Nat) :
    ∀ (d : TTFT_Device) (x y x1 dx dy Incr Error : Int) (c : Nat),
      (x1 + 1 - x).toNat ≤ fuel → c ≠ 255 → (Incr = 1 ∨ Incr = -1) →
      0 ≤ x → x1 ≤ d.Width - 1 →
      ∀ cx, x ≤ cx → cx ≤ x1 →
        ∃ cy : Int,
          (wideLoop d x y x1 dx dy Incr Error c fuel).FrameBuffer (cx + cy * d.Width) = c ∧
          ∀ cy' : Int, cy' ≠ cy →
            (wideLoop d x y x1 dx dy Incr Error c fuel).FrameBuffer (cx + cy' * d.Width) =
              d.FrameBuffer (cx + cy' * d.Width) := by
  induction fuel with
  | zero => intro d x y x1 dx dy Incr Error c hfuel _ _ _ _ cx h1 h2; omega
  | succ n ih =>
    intro d x y x1 dx dy Incr Error c hfuel hc hInc hx0 hx1W cx h1 h2
    have hx : x ≤ x1 := le_trans h1 h2
    simp only [wideLoop, if_pos hx]
    have key : ∀ ynext : Int, (ynext = y + Incr ∨ ynext = y) → ∀ Enext : Int,
        ∃ cy : Int,
          (wideLoop (TTFT_SetPixel d x y c) (x + 1) ynext x1 dx dy Incr Enext c n).FrameBuffer
            (cx + cy * d.Width) = c ∧
          ∀ cy' : Int, cy' ≠ cy →
            (wideLoop (TTFT_SetPixel d x y c) (x + 1) ynext x1 dx dy Incr Enext c n).FrameBuffer
              (cx + cy' * d.Width) = d.FrameBuffer (cx + cy' * d.Width) := by
      intro ynext _ Enext
      rcases eq_or_lt_of_le h1 with rfl | hlt
      · -- the current iteration paints column x; the rest never touches it
        have hrest : ∀ j : Int,
            (wideLoop (TTFT_SetPixel d x y c) (x + 1) ynext x1 dx dy Incr Enext c n).FrameBuffer
              (x + j * d.Width) =
            (TTFT_SetPixel d x y c).FrameBuffer (x + j * d.Width) := by
          intro j
          apply wideLoop_fb_unchanged n (TTFT_SetPixel d x y c) (x + 1) ynext x1 dx dy
            Incr Enext c (x + j * d.Width) hInc
          intro x' y' ha hb _ _
          rw [TTFT_SetPixel_Width]
          intro heq
          have := col_row_inj (W := d.Width) hx0 (by omega) (by omega) (by omega) heq
          omega
        refine ⟨y, ?_, ?_⟩
        · rw [hrest y]
          exact TTFT_SetPixel_fb_self d x y c hc
        · intro cy' hne
          rw [hrest cy']
          apply TTFT_SetPixel_fb_ne
          intro heq
          have := col_row_inj (W := d.Width) hx0 (by omega) hx0 (by omega) heq
          omega
      · -- column cx is painted by a later iteration
        have ihres := ih (TTFT_SetPixel d x y c) (x + 1) ynext x1 dx dy Incr Enext c
          (by omega) hc hInc (by omega) (by rw [TTFT_SetPixel_Width]; exact hx1W)
          cx (by omega) h2
        simp only [TTFT_SetPixel_Width] at ihres
        obtain ⟨cy, hA, hB⟩ := ihres
        refine ⟨cy, hA, fun cy' hne => ?_⟩
        rw [hB cy' hne]
        apply TTFT_SetPixel_fb_ne
        intro heq
        have := col_row_inj (W := d.Width) (by omega) (by omega) hx0 (by omega) heq
        omega
    by_cases hE : Error > 0
    · simp only [if_pos hE]
      exact key (y + Incr) (Or.inl rfl) _
    · simp only [if_neg hE]
      exact key y (Or.inr rfl) _

lemma tallLoop_fb_unchanged (fuel : Nat) :
    ∀ (d : TTFT_Device) (x y ty dx dy Incr Error : Int) (c : Nat) (i : Int),
      (Incr = 1 ∨ Incr = -1) →
      (∀ x' y' : Int, y ≤ y' → y' < ty → x - (y' - y) ≤ x' → x' ≤ x + (y' - y) →
        i ≠ x' + y' * d.Width) →
      (tallLoop d x y ty dx dy Incr Error c fuel).FrameBuffer i = d.FrameBuffer i := by
  induction fuel with
  | zero => intro d x y ty dx dy Incr Error c i _ _; rfl
  | succ n ih =>
    intro d x y ty dx dy Incr Error c i hInc h
    simp only [tallLoop]
    by_cases hy : y < ty
    · rw [if_pos hy]
      have hcur : i ≠ x + y * d.Width := h x y le_rfl hy (by omega) (by omega)
      have hnext : ∀ xnext : Int, (xnext = x + Incr ∨ xnext = x) →
          ∀ Enext : Int,
          (tallLoop (TTFT_SetPixel d x y c) xnext (y + 1) ty dx dy Incr Enext c n).FrameBuffer i
            = d.FrameBuffer i := by
        intro xnext hxn Enext
        rw [ih (TTFT_SetPixel d x y c) xnext (y + 1) ty dx dy Incr Enext c i hInc ?_]
        · exact TTFT_SetPixel_fb_ne d x y c i hcur
        · intro x' y' h1 h2 h3 h4
          rw [TTFT_SetPixel_Width]
          rcases hInc with rfl | rfl <;> rcases hxn with rfl | rfl <;>
            exact h x' y' (by omega) h2 (by omega) (by omega)
      by_cases hE : Error > 0
      · simp only [if_pos hE]
        exact hnext (x + Incr) (Or.inl rfl) _
      · simp only [if_neg hE]
        exact hnext x (Or.inr rfl) _
    · rw [if_neg hy]

lemma tallLoop_paints_row (fuel : Nat) :
    ∀ (d : TTFT_Device) (x y ty dx dy Incr Error : Int) (c : Nat),
      (ty - y).toNat ≤ fuel → c ≠ 255 → (Incr = 1 ∨ Incr = -1) →
      0 ≤ x - (ty - 1 - y) → x + (ty - 1 - y) ≤ d.Width - 1 →
      ∀ ry, y ≤ ry → ry < ty →
        ∃ cx : Int, 0 ≤ cx ∧ cx ≤ d.Width - 1 ∧
          (tallLoop d x y ty dx dy Incr Error c fuel).FrameBuffer (cx + ry * d.Width) = c := by
  induction fuel with
  | zero => intro d x y ty dx dy Incr Error c hfuel _ _ _ _ ry h1 h2; omega
  | succ n ih =>
    intro d x y ty dx dy Incr Error c hfuel hc hInc hlo hhi ry h1 h2
    have hy : y < ty := by omega
    simp only [tallLoop, if_pos hy]
    have key : ∀ xnext : Int, (xnext = x + Incr ∨ xnext = x) → ∀ Enext : Int,
        ∃ cx : Int, 0 ≤ cx ∧ cx ≤ d.Width - 1 ∧
          (tallLoop (TTFT_SetPixel d x y c) xnext (y + 1) ty dx dy Incr Enext c n).FrameBuffer
            (cx + ry * d.Width) = c := by
      intro xnext hxn Enext
      rcases eq_or_lt_of_le h1 with rfl | hlt
      · -- the current iteration paints row y at column x; later rows never
        -- touch that position
        refine ⟨x, by omega, by omega, ?_⟩
        have hrest :
            (tallLoop (TTFT_SetPixel d x y c) xnext (y + 1) ty dx dy Incr Enext c n).FrameBuffer
              (x + y * d.Width) =
            (TTFT_SetPixel d x y c).FrameBuffer (x + y * d.Width) := by
          apply tallLoop_fb_unchanged n (TTFT_SetPixel d x y c) xnext (y + 1) ty dx dy
            Incr Enext c (x + y * d.Width) hInc
          intro x' y' ha hb h3 h4
          rw [TTFT_SetPixel_Width]
          intro heq
          have hx'b : 0 ≤ x' ∧ x' ≤ d.Width - 1 := by
            rcases hInc with rfl | rfl <;> rcases hxn with rfl | rfl <;>
              constructor <;> omega
          have := col_row_inj (W := d.Width) (by omega) (by omega) hx'b.1 hx'b.2 heq
          omega
        rw [hrest]
        exact TTFT_SetPixel_fb_self d x y c hc
      · -- row ry is painted by a later iteration
        have ihres := ih (TTFT_SetPixel d x y c) xnext (y + 1) ty dx dy Incr Enext c
          (by omega) hc hInc ?_ ?_ ry (by omega) h2
        · simpa only [TTFT_SetPixel_Width] using ihres
        · rcases hInc with rfl | rfl <;> rcases hxn with rfl | rfl <;> omega
        · rw [TTFT_SetPixel_Width]
          rcases hInc with rfl | rfl <;> rcases hxn with rfl | rfl <;> omega
    by_cases hE : Error > 0
    · simp only [if_pos hE]
      exact key (x + Incr) (Or.inl rfl) _
    · simp only [if_neg hE]
      exact key x (Or.inr rfl) _

/-- Row discipline of the tall variant: under the drift-safety bounds, only
rows y0 .. y1-1 are touched (the final row y1 is not), and every one of
those rows receives the color. -/
lemma drawTallLine_props (d : TTFT_Device) (x0 y0 x1 y1 : Int) (c : Nat)
    (hc : c ≠ 255) (_hy : y0 ≤ y1)
    (hlo : 0 ≤ x0 - (y1 - 1 - y0)) (hhi : x0 + (y1 - 1 - y0) ≤ d.Width - 1) :
    (∀ cx cy : Int, 0 ≤ cx → cx ≤ d.Width - 1 → (cy < y0 ∨ y1 ≤ cy) →
      (TTFT_DrawTallLine d x0 y0 x1 y1 c).FrameBuffer (cx + cy * d.Width) =
        d.FrameBuffer (cx + cy * d.Width)) ∧
    (∀ ry : Int, y0 ≤ ry → ry < y1 →
      ∃ cx : Int, 0 ≤ cx ∧ cx ≤ d.Width - 1 ∧
        (TTFT_DrawTallLine d x0 y0 x1 y1 c).FrameBuffer (cx + ry * d.Width) = c) := by
  have hInc : (if x1 - x0 < 0 then (-1 : Int) else 1) = 1 ∨
      (if x1 - x0 < 0 then (-1 : Int) else 1) = -1 := by
    split_ifs <;> simp
  simp only [TTFT_DrawTallLine]
  constructor
  · intro cx cy hcx0 hcx1 hout
    apply tallLoop_fb_unchanged _ d x0 y0 y1 _ _ _ _ c _ hInc
    intro x' y' ha hb h3 h4
    intro heq
    have := col_row_inj (W := d.Width) hcx0 hcx1 (by omega) (by omega) heq
    omega
  · intro ry h1 h2
    exact tallLoop_paints_row _ d x0 y0 y1 _ _ _ _ c le_rfl hc hInc hlo hhi ry h1 h2

/-- Column discipline of the wide variant: with both endpoint columns in
range, exactly the columns x0 .. x1 (final column included) receive one
pixel each; all other columns are untouched. -/
lemma drawWideLine_props (d : TTFT_Device) (x0 y0 x1 y1 : Int) (c : Nat)
    (hc : c ≠ 255) (hlo : 0 ≤ x0) (hhi : x1 ≤ d.Width - 1) :
    (∀ cx cy : Int, 0 ≤ cx → cx ≤ d.Width - 1 → (cx < x0 ∨ x1 < cx) →
      (TTFT_DrawWideLine d x0 y0 x1 y1 c).FrameBuffer (cx + cy * d.Width) =
        d.FrameBuffer (cx + cy * d.Width)) ∧
    (∀ cx : Int, x0 ≤ cx → cx ≤ x1 →
      ∃ cy : Int,
        (TTFT_DrawWideLine d x0 y0 x1 y1 c).FrameBuffer (cx + cy * d.Width) = c ∧
        ∀ cy' : Int, cy' ≠ cy →
          (TTFT_DrawWideLine d x0 y0 x1 y1 c).FrameBuffer (cx + cy' * d.Width) =
            d.FrameBuffer (cx + cy' * d.Width)) := by
  have hInc : (if y1 - y0 < 0 then (-1 : Int) else 1) = 1 ∨
      (if y1 - y0 < 0 then (-1 : Int) else 1) = -1 := by
    split_ifs <;> simp
  simp only [TTFT_DrawWideLine]
  constructor
  · intro cx cy hcx0 hcx1 hout
    apply wideLoop_fb_unchanged _ d x0 y0 x1 _ _ _ _ c _ hInc
    intro x' y' ha hb h3 h4
    intro heq
    have := col_row_inj (W := d.Width) hcx0 hcx1 (by omega) (by omega) heq
    omega
  · intro cx h1 h2
    exact wideLoop_paints _ d x0 y0 x1 _ _ _ _ c le_rfl hc hInc hlo hhi cx h1 h2

/-- A 10 by 10 device with an all-zero framebuffer. -/
def dev10 : TTFT_Device :=
  { Width := 10
    Height := 10
    FrameBuffer := fun _ => 0
    Palette := fun n => n
    Font := none
    FontGetGlyphWidth := .fixed }

/-- C3: for a sloping line through drawLine (first endpoint in bounds, the
rasterized span on screen), the tall variant is chosen when the x extent is
at most the y extent, and after the swap that orders the rows it paints
pixels in rows min(y0,y1) .. max(y0,y1)-1 only — the final row max(y0,y1)
is never painted (exclusive bound y < y1) although each earlier row is; the
wide variant is chosen when the x extent is larger, and after the swap that
orders the columns it paints exactly one pixel in every column
min(x0,x1) .. max(x0,x1), the final column included, touching no other
column. -/
theorem drawLine_variant_bounds (d : TTFT_Device) (x0 y0 x1 y1 : Int) (c : Nat)
    (hc : c ≠ 255)
    (hx0a : 0 ≤ x0) (hx0b : x0 ≤ d.Width - 1)
    (hy0a : 0 ≤ y0) (hy0b : y0 ≤ d.Height - 1)
    (hv : x0 ≠ x1) (hh : y0 ≠ y1) :
    ((x1 - x0).natAbs ≤ (y1 - y0).natAbs →
      0 ≤ min x0 x1 - (max y0 y1 - 1 - min y0 y1) →
      max x0 x1 + (max y0 y1 - 1 - min y0 y1) ≤ d.Width - 1 →
      (∀ cx cy : Int, 0 ≤ cx → cx ≤ d.Width - 1 →
        (cy < min y0 y1 ∨ max y0 y1 ≤ cy) →
        (TTFT_DrawLine d x0 y0 x1 y1 c).FrameBuffer (cx + cy * d.Width) =
          d.FrameBuffer (cx + cy * d.Width)) ∧
      (∀ ry : Int, min y0 y1 ≤ ry → ry < max y0 y1 →
        ∃ cx : Int, 0 ≤ cx ∧ cx ≤ d.Width - 1 ∧
          (TTFT_DrawLine d x0 y0 x1 y1 c).FrameBuffer (cx + ry * d.Width) = c)) ∧
    ((y1 - y0).natAbs < (x1 - x0).natAbs →
      0 ≤ min x0 x1 → max x0 x1 ≤ d.Width - 1 →
      (∀ cx cy : Int, 0 ≤ cx → cx ≤ d.Width - 1 →
        (cx < min x0 x1 ∨ max x0 x1 < cx) →
        (TTFT_DrawLine d x0 y0 x1 y1 c).FrameBuffer (cx + cy * d.Width) =
          d.FrameBuffer (cx + cy * d.Width)) ∧
      (∀ cx : Int, min x0 x1 ≤ cx → cx ≤ max x0 x1 →
        ∃ cy : Int,
          (TTFT_DrawLine d x0 y0 x1 y1 c).FrameBuffer (cx + cy * d.Width) = c ∧
          ∀ cy' : Int, cy' ≠ cy →
            (TTFT_DrawLine d x0 y0 x1 y1 c).FrameBuffer (cx + cy' * d.Width) =
              d.FrameBuffer (cx + cy' * d.Width))) := by
  constructor
  · -- tall case
    intro hslope hdlo hdhi
    have hdisp : TTFT_DrawLine d x0 y0 x1 y1 c =
        if y0 > y1 then TTFT_DrawTallLine d x1 y1 x0 y0 c
        else TTFT_DrawTallLine d x0 y0 x1 y1 c := by
      unfold TTFT_DrawLine
      rw [if_neg (by omega), if_neg (by omega), if_neg hv, if_neg hh, if_neg (by omega)]
    rcases lt_or_gt_of_ne hh with hyy | hyy
    · rw [hdisp, if_neg (by omega)]
      have hmin : min y0 y1 = y0 := by omega
      have hmax : max y0 y1 = y1 := by omega
      have h := drawTallLine_props d x0 y0 x1 y1 c hc (by omega)
        (by omega) (by omega)
      rw [hmin, hmax]
      exact h
    · rw [hdisp, if_pos (by omega)]
      have hmin : min y0 y1 = y1 := by omega
      have hmax : max y0 y1 = y0 := by omega
      have h := drawTallLine_props d x1 y1 x0 y0 c hc (by omega)
        (by omega) (by omega)
      rw [hmin, hmax]
      exact h
  · -- wide case
    intro hslope hdlo hdhi
    have hdisp : TTFT_DrawLine d x0 y0 x1 y1 c =
        if x0 > x1 then TTFT_DrawWideLine d x1 y1 x0 y0 c
        else TTFT_DrawWideLine d x0 y0 x1 y1 c := by
      unfold TTFT_DrawLine
      rw [if_neg (by omega), if_neg (by omega), if_neg hv, if_neg hh, if_pos (by omega)]
    rcases lt_or_gt_of_ne hv with hxx | hxx
    · rw [hdisp, if_neg (by omega)]
      have hmin : min x0 x1 = x0 := by omega
      have hmax : max x0 x1 = x1 := by omega
      have h := drawWideLine_props d x0 y0 x1 y1 c hc (by omega) (by omega)
      rw [hmin, hmax]
      exact h
    · rw [hdisp, if_pos (by omega)]
      have hmin : min x0 x1 = x1 := by omega
      have hmax : max x0 x1 = x0 := by omega
      have h := drawWideLine_props d x1 y1 x0 y0 c hc (by omega) (by omega)
      rw [hmin, hmax]
      exact h

/-- C3 witness: the tall line (5,1)-(6,4) on the 10 by 10 device leaves its
final row 4 unchanged while painting a pixel in row 1; the wide line
(1,5)-(4,6) paints a pixel in its final column 4. -/
theorem drawLine_variant_bounds_witness :
    (TTFT_DrawLine dev10 5 1 6 4 1).FrameBuffer (6 + 4 * dev10.Width) =
      dev10.FrameBuffer (6 + 4 * dev10.Width) ∧
    (∃ cx : Int, 0 ≤ cx ∧ cx ≤ dev10.Width - 1 ∧
      (TTFT_DrawLine dev10 5 1 6 4 1).FrameBuffer (cx + 1 * dev10.Width) = 1) ∧
    (∃ cy : Int,
      (TTFT_DrawLine dev10 1 5 4 6 1).FrameBuffer (4 + cy * dev10.Width) = 1 ∧
      ∀ cy' : Int, cy' ≠ cy →
        (TTFT_DrawLine dev10 1 5 4 6 1).FrameBuffer (4 + cy' * dev10.Width) =
          dev10.FrameBuffer (4 + cy' * dev10.Width)) := by
  have ht := (drawLine_variant_bounds dev10 5 1 6 4 1 (by decide) (by decide) (by decide)
    (by decide) (by decide) (by decide) (by decide)).1 (by decide) (by decide) (by decide)
  have hw := (drawLine_variant_bounds dev10 1 5 4 6 1 (by decide) (by decide) (by decide)
    (by decide) (by decide) (by decide) (by decide)).2 (by decide) (by decide) (by decide)
  refine ⟨ht.1 6 4 (by decide) (by decide) (Or.inr (by decide)),
    ht.2 1 (by decide) (by decide), ?_⟩
  exact hw.2 4 (by decide) (by decide)

end TTFT
